import Mathlib

/-!
Verification of the trade analytics aggregation engine of the trade-compass
trading-journal application.

The development shallowly embeds the pure aggregation functions of the source
(KPI aggregation, Compass Score normalization, risk progress and risk guard
evaluation, time/session/duration analytics, tag analytics) over an explicit
trade-record model.  JavaScript numbers are modelled as rationals (the numeric
edge-case policies under scrutiny are sign tests, exact divisions and fixed
thresholds, none of which depend on binary floating point), timestamps as epoch
milliseconds, and JavaScript Maps as insertion-ordered association lists.
-/

namespace TradeCompass

/-- Result classification stored on a trade record (the TradeStatus union of the
source: "win" | "loss" | "be"). -/
inductive TradeStatus where
  | win
  | loss
  | be
deriving DecidableEq

/-- Model of a timestamp-valued field, which in the source may be a Firestore
Timestamp, a native Date, a string or null/undefined.  A Timestamp or Date
carries a definite instant (epoch milliseconds); a string either parses to an
instant or is malformed; the field may be absent. -/
inductive TsInput where
  | missing
  | instant (ms : Int)
  | strValid (ms : Int)
  | strInvalid
deriving DecidableEq

/-- Trade record: the fields of the source Trade type read by the aggregation
engine.  pnlCurrency is declared total in the source type but aggregators guard
reads with "?? 0", so it is modelled as optional with getD 0 at those sites;
the optional tags array of the source behaves exactly like an empty one in
every reader when absent, so it is a plain list here. -/
structure Trade where
  symbol : String
  openTime : TsInput
  closeTime : TsInput
  tradeDate : TsInput
  pnlCurrency : Option ℚ
  rMultiple : Option ℚ
  status : TradeStatus
  tags : List String
deriving DecidableEq

/-- Normalize a timestamp field to an instant (normalizeTimestamp in the
source): null and undefined give null, a Date or Timestamp passes through, a
string parses to an instant or gives null when malformed. -/
def normalizeTimestamp : TsInput → Option Int
  | TsInput.missing => Option.none
  | TsInput.instant ms => Option.some ms
  | TsInput.strValid ms => Option.some ms
  | TsInput.strInvalid => Option.none

/-- Effective open time of a trade (getEffectiveOpenTime in timeAnalytics.ts):
prefer openTime, fall back to closeTime, fall back to parsing the tradeDate
string. -/
def getEffectiveOpenTime (t : Trade) : Option Int :=
  match normalizeTimestamp t.openTime with
  | Option.some ms => Option.some ms
  | Option.none =>
    match normalizeTimestamp t.closeTime with
    | Option.some ms => Option.some ms
    | Option.none => normalizeTimestamp t.tradeDate

/-- Effective close time of a trade (getEffectiveCloseTime in
timeAnalytics.ts): prefer closeTime, fall back to openTime, fall back to
parsing the tradeDate string. -/
def getEffectiveCloseTime (t : Trade) : Option Int :=
  match normalizeTimestamp t.closeTime with
  | Option.some ms => Option.some ms
  | Option.none =>
    match normalizeTimestamp t.openTime with
    | Option.some ms => Option.some ms
    | Option.none => normalizeTimestamp t.tradeDate

/-- Effective date of a trade for P&L day-bucketing (getEffectiveDate in the
dashboard and tag-analytics modules): prefer closeTime, fall back to openTime,
fall back to parsing the tradeDate string. -/
def getEffectiveDate (t : Trade) : Option Int :=
  match normalizeTimestamp t.closeTime with
  | Option.some ms => Option.some ms
  | Option.none =>
    match normalizeTimestamp t.openTime with
    | Option.some ms => Option.some ms
    | Option.none => normalizeTimestamp t.tradeDate

/-- Milliseconds in a day. -/
def msPerDay : Int := 86400000

/-- Milliseconds in an hour. -/
def msPerHour : Int := 3600000

/-- Calendar-day index of an instant: the number of whole days since the epoch.
This models the "YYYY-MM-DD" date key produced by formatDateKey in the source;
lexicographic comparison of those key strings agrees with the numeric order of
this index. -/
def dateKeyOf (ms : Int) : Int := Int.ediv ms msPerDay

/-- Effective calendar day of a trade: dateKeyOf applied to its effective
date (formatDateKey(getEffectiveDate(trade)) in the source). -/
def effectiveDayOf (t : Trade) : Option Int :=
  (getEffectiveDate t).map dateKeyOf

/-- JavaScript Date.getDay for a calendar-day index (0 = Sunday .. 6 =
Saturday); epoch day 0, 1970-01-01, was a Thursday. -/
def jsGetDayOfKey (day : Int) : Int := Int.emod (day + 4) 7

/-- JavaScript Date.getDay of an instant. -/
def jsGetDay (ms : Int) : Int := jsGetDayOfKey (dateKeyOf ms)

/-- JavaScript Date.getHours of an instant. -/
def jsGetHours (ms : Int) : Int := Int.emod (Int.ediv ms msPerHour) 24

/-- Trading session labels of the source TradingSession union. -/
inductive TradingSession where
  | Asia
  | London
  | NewYork
  | Other
deriving DecidableEq

/-- Classify the trading session from the hour of an instant (classifySession
in timeAnalytics.ts): hours 0-7 Asia, 7-14 London, 14-22 NewYork, else
Other. -/
def classifySession (ms : Int) : TradingSession :=
  let hour := jsGetHours ms
  if 0 ≤ hour ∧ hour < 7 then TradingSession.Asia
  else if 7 ≤ hour ∧ hour < 14 then TradingSession.London
  else if 14 ≤ hour ∧ hour < 22 then TradingSession.NewYork
  else TradingSession.Other

/-- Classify the holding-duration bucket from the holding time in minutes
(classifyDurationBucket in timeAnalytics.ts). -/
def classifyDurationBucket (minutes : ℚ) : String :=
  if minutes < 5 then "0-5m"
  else if minutes < 30 then "5-30m"
  else if minutes < 120 then "30m-120m"
  else if minutes < 360 then "2-6h"
  else if minutes < 1440 then "6-24h"
  else "24h+"

/-- Clamp a value to the closed interval between lo and hi (clamp in the
dashboard module, which computes min(max, max(min, value))). -/
def clamp (value lo hi : ℚ) : ℚ := min hi (max lo value)

/-- Profit-factor sub-score of the dashboard Compass Score variant
(scoreProfitFactor in the dashboard module).  The source returns 0 for
non-finite or non-positive inputs; rationals are always finite, so only the
sign test remains. -/
def scoreProfitFactor (pf : ℚ) : ℚ :=
  if pf ≤ 0 then 0
  else if 3 ≤ pf then 100
  else if 2 ≤ pf then 80 + (pf - 2) * 20
  else if 3/2 ≤ pf then 60 + (pf - 3/2) * 40
  else if 1 ≤ pf then 30 + (pf - 1) * 60
  else 10

/-- Modelled from the spec: the profit-factor curve exactly as claim C3 words
it for the per-trade (dashboard) Compass Score variant — 0 for pf ≤ 0, linear
30→60 on 0..1, 60→80 on 1..2, 80→95 on 2..3, and 100 for pf ≥ 3.  Kept for
comparison with the scoreProfitFactor definition taken from the source. -/
def scoreProfitFactorClaimCurve (pf : ℚ) : ℚ :=
  if pf ≤ 0 then 0
  else if pf < 1 then 30 + pf * 30
  else if pf < 2 then 60 + (pf - 1) * 20
  else if pf < 3 then 80 + (pf - 2) * 15
  else 100

end TradeCompass

namespace TradeCompass

/-- Risk guard states of the source RiskGuardStateType union. -/
inductive RiskGuardStateType where
  | none
  | dailyWarning
  | dailyLocked
  | weeklyWarning
  | weeklyLocked
deriving DecidableEq

/-- Risk progress record (RiskProgress in the dashboard module). -/
structure RiskProgress where
  dailyPnlPercent : ℚ
  weeklyPnlPercent : ℚ
  todayPnl : ℚ
  weekPnl : ℚ
deriving DecidableEq

/-- User risk settings (UserRiskSettings in the source; every field is
number | null). -/
structure UserRiskSettings where
  maxDailyLossPercent : Option ℚ
  maxWeeklyLossPercent : Option ℚ
  targetDailyProfitPercent : Option ℚ
  targetWeeklyProfitPercent : Option ℚ
deriving DecidableEq

/-- Risk guard evaluation result (RiskGuardEvaluation in the source).  The
human-readable message string is presentation text interpolating numbers
already present in the other fields and is not modelled. -/
structure RiskGuardEvaluation where
  state : RiskGuardStateType
  todayReturnPercent : Option ℚ
  weekReturnPercent : Option ℚ
  dailyLossUsage : Option ℚ
  weeklyLossUsage : Option ℚ
deriving DecidableEq

/-- Daily loss magnitude used by evaluateRiskGuard: the absolute value of the
daily P&L percentage when it is negative, else 0. -/
def dailyLossAbsOf (rp : RiskProgress) : ℚ :=
  if rp.dailyPnlPercent < 0 then |rp.dailyPnlPercent| else 0

/-- Weekly loss magnitude used by evaluateRiskGuard. -/
def weeklyLossAbsOf (rp : RiskProgress) : ℚ :=
  if rp.weeklyPnlPercent < 0 then |rp.weeklyPnlPercent| else 0

/-- Configured daily loss cap as the number JavaScript coerces it to: a null
setting compares and divides as 0. -/
def maxDailyOf (rs : UserRiskSettings) : ℚ := rs.maxDailyLossPercent.getD 0

/-- Configured weekly loss cap, with null coerced to 0. -/
def maxWeeklyOf (rs : UserRiskSettings) : ℚ := rs.maxWeeklyLossPercent.getD 0

/-- Percentage of the daily loss cap consumed (dailyLossUsage in the source):
dailyLossAbs / maxDailyLossPercent × 100 when the cap is positive, else 0. -/
def dailyLossUsageOf (rp : RiskProgress) (rs : UserRiskSettings) : ℚ :=
  if 0 < maxDailyOf rs then dailyLossAbsOf rp / maxDailyOf rs * 100 else 0

/-- Percentage of the weekly loss cap consumed. -/
def weeklyLossUsageOf (rp : RiskProgress) (rs : UserRiskSettings) : ℚ :=
  if 0 < maxWeeklyOf rs then weeklyLossAbsOf rp / maxWeeklyOf rs * 100 else 0

/-- Risk guard evaluator (evaluateRiskGuard in the source): an if-chain testing
daily-locked, weekly-locked, daily-warning, weekly-warning in order, with a
none fallback; absent inputs yield the none state with no numeric fields. -/
def evaluateRiskGuard (riskProgress : Option RiskProgress)
    (riskSettings : Option UserRiskSettings) : RiskGuardEvaluation :=
  match riskProgress, riskSettings with
  | Option.some rp, Option.some rs =>
    let dailyLossAbs := dailyLossAbsOf rp
    let weeklyLossAbs := weeklyLossAbsOf rp
    let dailyLossUsage := dailyLossUsageOf rp rs
    let weeklyLossUsage := weeklyLossUsageOf rp rs
    if maxDailyOf rs ≤ dailyLossAbs ∧ 0 < maxDailyOf rs then
      ⟨RiskGuardStateType.dailyLocked, Option.some rp.dailyPnlPercent,
        Option.none, Option.some dailyLossUsage, Option.none⟩
    else if maxWeeklyOf rs ≤ weeklyLossAbs ∧ 0 < maxWeeklyOf rs then
      ⟨RiskGuardStateType.weeklyLocked, Option.none,
        Option.some rp.weeklyPnlPercent, Option.none, Option.some weeklyLossUsage⟩
    else if 50 ≤ dailyLossUsage ∧ dailyLossUsage < 100 ∧ 0 < maxDailyOf rs then
      ⟨RiskGuardStateType.dailyWarning, Option.some rp.dailyPnlPercent,
        Option.none, Option.some dailyLossUsage, Option.none⟩
    else if 50 ≤ weeklyLossUsage ∧ weeklyLossUsage < 100 ∧ 0 < maxWeeklyOf rs then
      ⟨RiskGuardStateType.weeklyWarning, Option.none,
        Option.some rp.weeklyPnlPercent, Option.none, Option.some weeklyLossUsage⟩
    else
      ⟨RiskGuardStateType.none, Option.some rp.dailyPnlPercent,
        Option.some rp.weeklyPnlPercent, Option.some dailyLossUsage,
        Option.some weeklyLossUsage⟩
  | _, _ =>
    ⟨RiskGuardStateType.none, Option.none, Option.none, Option.none, Option.none⟩

/-- Gross profit of the trades-page KPI aggregator: sum of the positive
pnlCurrency values. -/
def kpiGrossProfit (trades : List Trade) : ℚ :=
  ((trades.filter (fun t => 0 < t.pnlCurrency.getD 0)).map
    (fun t => t.pnlCurrency.getD 0)).sum

/-- Absolute gross loss of the trades-page KPI aggregator: the absolute value
of the sum of the negative pnlCurrency values. -/
def kpiGrossLoss (trades : List Trade) : ℚ :=
  |((trades.filter (fun t => t.pnlCurrency.getD 0 < 0)).map
    (fun t => t.pnlCurrency.getD 0)).sum|

/-- Trades-page KPI record (TradesKpis in the source). -/
structure TradesKpis where
  netPnl : ℚ
  winRate : ℚ
  profitFactor : Option ℚ
  avgR : Option ℚ
  totalTrades : ℕ
deriving DecidableEq

/-- KPI aggregation of the trades page (calculateTradesKpis in the source).
Wins, losses and breakevens are counted from the stored status field here.
pnlCurrency is read through the declared-total source type; the model reads it
with getD 0, the treat-missing-as-zero summation policy of the engine. -/
def calculateTradesKpis (trades : List Trade) : TradesKpis :=
  if trades.isEmpty then
    ⟨0, 0, Option.none, Option.none, 0⟩
  else
    let netPnl := (trades.map (fun t => t.pnlCurrency.getD 0)).sum
    let totalTrades := trades.length
    let wins := (trades.filter (fun t => t.status = TradeStatus.win)).length
    let losses := (trades.filter (fun t => t.status = TradeStatus.loss)).length
    let breakevens := (trades.filter (fun t => t.status = TradeStatus.be)).length
    let totalWithResult := wins + losses + breakevens
    let winRate := if 0 < totalWithResult then
        ((wins : ℚ) / ((totalWithResult : ℕ) : ℚ)) * 100
      else 0
    let grossProfit := kpiGrossProfit trades
    let grossLoss := kpiGrossLoss trades
    let profitFactor := if 0 < grossLoss then Option.some (grossProfit / grossLoss)
      else if 0 < grossProfit then Option.none else Option.none
    let tradesWithR := trades.filter (fun t => t.rMultiple.isSome)
    let avgR := if 0 < tradesWithR.length then
        Option.some ((tradesWithR.map (fun t => t.rMultiple.getD 0)).sum /
          ((tradesWithR.length : ℕ) : ℚ))
      else Option.none
    ⟨netPnl, winRate, profitFactor, avgR, totalTrades⟩

/-- Dashboard KPI block of aggregateTrades in the source (the average position
size, computed from a field no claim touches, is not modelled). -/
structure DashboardKpis where
  totalTrades : ℕ
  totalProfit : ℚ
  winCount : ℕ
  lossCount : ℕ
  winRate : ℚ
  avgProfitPerTrade : ℚ
deriving DecidableEq

/-- Global KPI computation of aggregateTrades in the dashboard module: wins
and losses are classified by the sign of pnlCurrency ?? 0, and the win-rate
denominator is winCount + lossCount. -/
def dashboardKpisOf (trades : List Trade) : DashboardKpis :=
  let totalTrades := trades.length
  let totalProfit := (trades.map (fun t => t.pnlCurrency.getD 0)).sum
  let winCount := (trades.filter (fun t => 0 < t.pnlCurrency.getD 0)).length
  let lossCount := (trades.filter (fun t => t.pnlCurrency.getD 0 < 0)).length
  let totalWithResult := winCount + lossCount
  let winRate := if 0 < totalWithResult then
      ((winCount : ℚ) / ((totalWithResult : ℕ) : ℚ)) * 100
    else 0
  let avgProfitPerTrade := if 0 < totalTrades then
      totalProfit / ((totalTrades : ℕ) : ℚ)
    else 0
  ⟨totalTrades, totalProfit, winCount, lossCount, winRate, avgProfitPerTrade⟩

/-- Compass Score metric of the dashboard (CompassScoreMetric in the source):
a raw value and its 0-100 sub-score. -/
structure CompassScoreMetric where
  value : ℚ
  score : ℚ
deriving DecidableEq

/-- Gross profit over all trades in the dashboard Compass computation: the sum
of the positive pnlCurrency ?? 0 values. -/
def dashGrossProfit (trades : List Trade) : ℚ :=
  ((trades.map (fun t => t.pnlCurrency.getD 0)).filter (fun v => 0 < v)).sum

/-- Absolute gross loss over all trades in the dashboard Compass
computation. -/
def dashGrossLossAbs (trades : List Trade) : ℚ :=
  |((trades.map (fun t => t.pnlCurrency.getD 0)).filter (fun v => v < 0)).sum|

/-- Profit-factor metric value of the dashboard Compass Score: gross profit
over absolute gross loss, and 0 (not null) when the gross loss is zero. -/
def dashProfitFactorValue (trades : List Trade) : ℚ :=
  if 0 < dashGrossLossAbs trades then
    dashGrossProfit trades / dashGrossLossAbs trades
  else 0

/-- Profit-factor Compass metric of the dashboard: the raw value paired with
its scoreProfitFactor sub-score. -/
def dashProfitFactorMetric (trades : List Trade) : CompassScoreMetric :=
  ⟨dashProfitFactorValue trades, scoreProfitFactor (dashProfitFactorValue trades)⟩

/-- Modelled from the spec: the number of wins of a trade list under the
uniform P&L-sign rule (pnl > 0 is a win), for comparison with what the
aggregators compute. -/
def winsBySign (trades : List Trade) : ℕ :=
  (trades.filter (fun t => 0 < t.pnlCurrency.getD 0)).length

/-- Modelled from the spec: losses under the uniform P&L-sign rule. -/
def lossesBySign (trades : List Trade) : ℕ :=
  (trades.filter (fun t => t.pnlCurrency.getD 0 < 0)).length

/-- Modelled from the spec: breakevens under the uniform P&L-sign rule. -/
def breakevensBySign (trades : List Trade) : ℕ :=
  (trades.filter (fun t => t.pnlCurrency.getD 0 = 0)).length

/-- Wins of a trade list as the trades page counts them: by the stored status
field. -/
def statusWinsOf (trades : List Trade) : ℕ :=
  (trades.filter (fun t => t.status = TradeStatus.win)).length

/-- Losses counted by the stored status field. -/
def statusLossesOf (trades : List Trade) : ℕ :=
  (trades.filter (fun t => t.status = TradeStatus.loss)).length

/-- Breakevens counted by the stored status field. -/
def statusBreakevensOf (trades : List Trade) : ℕ :=
  (trades.filter (fun t => t.status = TradeStatus.be)).length

/-- Concrete trade with a positive P&L of 100 but a stored status of loss. -/
def staleStatusTrade : Trade :=
  ⟨"EURUSD", TsInput.instant 0, TsInput.instant 3600000, TsInput.strValid 0,
    Option.some 100, Option.none, TradeStatus.loss, []⟩

/-- Concrete winning, losing and breakeven trades with consistent stored
statuses (P&L +100, -50 and 0). -/
def winTrade : Trade :=
  ⟨"EURUSD", TsInput.instant 0, TsInput.instant 3600000, TsInput.strValid 0,
    Option.some 100, Option.some 2, TradeStatus.win, ["a", "b"]⟩

/-- Losing trade of the concrete example list. -/
def lossTrade : Trade :=
  ⟨"EURUSD", TsInput.instant 0, TsInput.instant 3600000, TsInput.strValid 0,
    Option.some (-50), Option.some (-1), TradeStatus.loss, ["a"]⟩

/-- Breakeven trade of the concrete example list. -/
def beTrade : Trade :=
  ⟨"EURUSD", TsInput.instant 0, TsInput.instant 3600000, TsInput.strValid 0,
    Option.some 0, Option.none, TradeStatus.be, []⟩

/-- Lookup in a JavaScript Map modelled as an insertion-ordered association
list (map.get). -/
def lookupA {κ α : Type} [DecidableEq κ] (k : κ) : List (κ × α) → Option α
  | [] => Option.none
  | e :: m => if e.1 = k then Option.some e.2 else lookupA k m

/-- Update-or-insert in a JavaScript Map modelled as an association list: the
map.get / create-if-absent / mutate / map.set pattern of the aggregators.  The
update f is applied to the existing value, or to init when the key is new; new
keys are appended in insertion order. -/
def upsert {κ α : Type} [DecidableEq κ] (k : κ) (init : α) (f : α → α) :
    List (κ × α) → List (κ × α)
  | [] => [(k, f init)]
  | e :: m => if e.1 = k then (e.1, f e.2) :: m else e :: upsert k init f m

/-- Insert into a list ordered by a boolean comparator (helper of sortBy). -/
def insertSorted {α : Type} (le : α → α → Bool) (x : α) : List α → List α
  | [] => [x]
  | y :: ys => if le x y then x :: y :: ys else y :: insertSorted le x ys

/-- Comparator sort modelling Array.prototype.sort of the source: produces a
list ordered by the comparator; every claim under study depends only on the
multiset of elements, not on tie order. -/
def sortBy {α : Type} (le : α → α → Bool) : List α → List α
  | [] => []
  | x :: xs => insertSorted le x (sortBy le xs)

/-- Per-tag accumulator of aggregateTagStats in the source. -/
structure TagAcc where
  tradesCount : ℕ
  winsCount : ℕ
  lossesCount : ℕ
  breakevenCount : ℕ
  netPnlCurrency : ℚ
  grossProfit : ℚ
  grossLossAbs : ℚ
  sumR : ℚ
  countR : ℕ
deriving DecidableEq

/-- Fresh tag accumulator (the all-zero object created on first sight of a
tag). -/
def initTagAcc : TagAcc := ⟨0, 0, 0, 0, 0, 0, 0, 0, 0⟩

/-- One trade's contribution to a tag accumulator, exactly as the per-tag
update block of aggregateTagStats applies it: counts by the sign of
pnlCurrency ?? 0, gross profit/loss split by sign, R summed only when
rMultiple is present. -/
def updateTagAcc (t : Trade) (a : TagAcc) : TagAcc :=
  let pnl := t.pnlCurrency.getD 0
  ⟨a.tradesCount + 1,
    a.winsCount + (if 0 < pnl then 1 else 0),
    a.lossesCount + (if pnl < 0 then 1 else 0),
    a.breakevenCount + (if pnl = 0 then 1 else 0),
    a.netPnlCurrency + pnl,
    a.grossProfit + (if 0 < pnl then pnl else 0),
    a.grossLossAbs + (if pnl < 0 then |pnl| else 0),
    a.sumR + (if t.rMultiple.isSome then t.rMultiple.getD 0 else 0),
    a.countR + (if t.rMultiple.isSome then 1 else 0)⟩

/-- Trades carrying at least one tag (the tradesWithTags filter of
aggregateTagStats). -/
def tradesWithTagsOf (trades : List Trade) : List Trade :=
  trades.filter (fun t => !t.tags.isEmpty)

/-- Tag map of aggregateTagStats: every tagged trade is folded into the
accumulator of each of its tags. -/
def tagMapOf (trades : List Trade) : List (String × TagAcc) :=
  (tradesWithTagsOf trades).foldl
    (fun m t => t.tags.foldl (fun m tag => upsert tag initTagAcc (updateTagAcc t) m) m)
    []

/-- Accumulator a list of trades folds to when every one of them is applied
to a fresh tag accumulator (the per-bucket aggregate the tag map stores for a
key whose carriers are exactly that list). -/
def tagBucketAcc (l : List Trade) : TagAcc :=
  l.foldl (fun a t => updateTagAcc t a) initTagAcc

/-- Per-tag statistic record (TagStat in the source types). -/
structure TagStat where
  tag : String
  tradesCount : ℕ
  winsCount : ℕ
  lossesCount : ℕ
  breakevenCount : ℕ
  winRate : ℚ
  netPnlCurrency : ℚ
  avgRMultiple : Option ℚ
  profitFactor : Option ℚ
deriving DecidableEq

/-- Conversion of a tag-map entry to a TagStat, as in the map step of
aggregateTagStats: win rate over wins + losses (0 when none), average R over
trades with R only, profit factor null when the absolute gross loss is
zero. -/
def mkTagStat (e : String × TagAcc) : TagStat :=
  let tradesWithResult := e.2.winsCount + e.2.lossesCount
  let winRate := if 0 < tradesWithResult then
      (e.2.winsCount : ℚ) / ((tradesWithResult : ℕ) : ℚ)
    else 0
  let avgRMultiple := if 0 < e.2.countR then
      Option.some (e.2.sumR / ((e.2.countR : ℕ) : ℚ))
    else Option.none
  let profitFactor := if 0 < e.2.grossLossAbs then
      Option.some (e.2.grossProfit / e.2.grossLossAbs)
    else Option.none
  ⟨e.1, e.2.tradesCount, e.2.winsCount, e.2.lossesCount, e.2.breakevenCount,
    winRate, e.2.netPnlCurrency, avgRMultiple, profitFactor⟩

/-- Tag-stat comparator of the source: net P&L descending, ties by trade count
descending. -/
def tagStatLe (a b : TagStat) : Bool :=
  if a.netPnlCurrency = b.netPnlCurrency then
    decide (b.tradesCount ≤ a.tradesCount)
  else decide (b.netPnlCurrency < a.netPnlCurrency)

/-- Tag aggregation (aggregateTagStats in the source): tagged trades only,
full unsplit contribution to each tag bucket, sorted by net P&L then trade
count, both descending. -/
def aggregateTagStats (trades : List Trade) : List TagStat :=
  if (tradesWithTagsOf trades).isEmpty then []
  else sortBy tagStatLe ((tagMapOf trades).map mkTagStat)

/-- Per-bucket accumulator of aggregateTimeAnalytics in the source (shared by
the weekday, session and duration maps). -/
structure TimeAcc where
  tradesCount : ℕ
  winsCount : ℕ
  lossesCount : ℕ
  breakevenCount : ℕ
  netPnlCurrency : ℚ
  sumR : ℚ
  countR : ℕ
deriving DecidableEq

/-- Fresh time-analytics accumulator. -/
def initTimeAcc : TimeAcc := ⟨0, 0, 0, 0, 0, 0, 0⟩

/-- One trade's contribution to a time-analytics accumulator: counts by the
sign of pnlCurrency ?? 0, R summed only when rMultiple is present. -/
def updateTimeAcc (t : Trade) (a : TimeAcc) : TimeAcc :=
  let pnl := t.pnlCurrency.getD 0
  ⟨a.tradesCount + 1,
    a.winsCount + (if 0 < pnl then 1 else 0),
    a.lossesCount + (if pnl < 0 then 1 else 0),
    a.breakevenCount + (if pnl = 0 then 1 else 0),
    a.netPnlCurrency + pnl,
    a.sumR + (if t.rMultiple.isSome then t.rMultiple.getD 0 else 0),
    a.countR + (if t.rMultiple.isSome then 1 else 0)⟩

/-- Trades with a usable effective open and close time (the validTrades filter
of aggregateTimeAnalytics). -/
def validTimeTrades (trades : List Trade) : List Trade :=
  trades.filter (fun t =>
    (getEffectiveOpenTime t).isSome && (getEffectiveCloseTime t).isSome)

/-- Holding time of a trade in minutes, (closeTime - openTime) / 60000, read
off the effective times (0 is never used: the callers only apply this to
valid trades). -/
def holdingMinutesOf (t : Trade) : ℚ :=
  (((getEffectiveCloseTime t).getD 0 - (getEffectiveOpenTime t).getD 0 : Int) : ℚ) / 60000

/-- Weekday map of aggregateTimeAnalytics, keyed by the JavaScript weekday of
the effective open time. -/
def weekdayMapOf (trades : List Trade) : List (Int × TimeAcc) :=
  (validTimeTrades trades).foldl
    (fun m t => upsert (jsGetDay ((getEffectiveOpenTime t).getD 0)) initTimeAcc
      (updateTimeAcc t) m)
    []

/-- Session map of aggregateTimeAnalytics, keyed by the trading session of the
effective open time. -/
def sessionMapOf (trades : List Trade) : List (TradingSession × TimeAcc) :=
  (validTimeTrades trades).foldl
    (fun m t => upsert (classifySession ((getEffectiveOpenTime t).getD 0)) initTimeAcc
      (updateTimeAcc t) m)
    []

/-- Duration-bucket map of aggregateTimeAnalytics, keyed by the duration
bucket of the holding minutes. -/
def durationMapOf (trades : List Trade) : List (String × TimeAcc) :=
  (validTimeTrades trades).foldl
    (fun m t => upsert (classifyDurationBucket (holdingMinutesOf t)) initTimeAcc
      (updateTimeAcc t) m)
    []

/-- Weekday label table of the source (labels[weekday] with an "Unknown"
fallback). -/
def getWeekdayLabel (weekday : Int) : String :=
  if weekday = 0 then "Sun"
  else if weekday = 1 then "Mon"
  else if weekday = 2 then "Tue"
  else if weekday = 3 then "Wed"
  else if weekday = 4 then "Thu"
  else if weekday = 5 then "Fri"
  else if weekday = 6 then "Sat"
  else "Unknown"

/-- Per-weekday statistic record (WeekdayStat in the source types). -/
structure WeekdayStat where
  weekday : Int
  label : String
  tradesCount : ℕ
  winsCount : ℕ
  lossesCount : ℕ
  breakevenCount : ℕ
  netPnlCurrency : ℚ
  winRate : ℚ
  avgRMultiple : Option ℚ
deriving DecidableEq

/-- Per-session statistic record (SessionStat in the source types). -/
structure SessionStat where
  session : TradingSession
  tradesCount : ℕ
  winsCount : ℕ
  lossesCount : ℕ
  breakevenCount : ℕ
  netPnlCurrency : ℚ
  winRate : ℚ
  avgRMultiple : Option ℚ
deriving DecidableEq

/-- Per-duration-bucket statistic record (DurationBucketStat in the source
types). -/
structure DurationBucketStat where
  bucketKey : String
  minMinutes : ℚ
  maxMinutes : Option ℚ
  tradesCount : ℕ
  winsCount : ℕ
  lossesCount : ℕ
  breakevenCount : ℕ
  netPnlCurrency : ℚ
  winRate : ℚ
  avgRMultiple : Option ℚ
deriving DecidableEq

/-- Conversion of a weekday-map entry to a WeekdayStat: win rate over wins +
losses (0 when none) and average R over trades with R only. -/
def mkWeekdayStat (e : Int × TimeAcc) : WeekdayStat :=
  let tradesWithResult := e.2.winsCount + e.2.lossesCount
  let winRate := if 0 < tradesWithResult then
      (e.2.winsCount : ℚ) / ((tradesWithResult : ℕ) : ℚ)
    else 0
  let avgRMultiple := if 0 < e.2.countR then
      Option.some (e.2.sumR / ((e.2.countR : ℕ) : ℚ))
    else Option.none
  ⟨e.1, getWeekdayLabel e.1, e.2.tradesCount, e.2.winsCount, e.2.lossesCount,
    e.2.breakevenCount, e.2.netPnlCurrency, winRate, avgRMultiple⟩

/-- Conversion of a session-map entry to a SessionStat. -/
def mkSessionStat (e : TradingSession × TimeAcc) : SessionStat :=
  let tradesWithResult := e.2.winsCount + e.2.lossesCount
  let winRate := if 0 < tradesWithResult then
      (e.2.winsCount : ℚ) / ((tradesWithResult : ℕ) : ℚ)
    else 0
  let avgRMultiple := if 0 < e.2.countR then
      Option.some (e.2.sumR / ((e.2.countR : ℕ) : ℚ))
    else Option.none
  ⟨e.1, e.2.tradesCount, e.2.winsCount, e.2.lossesCount, e.2.breakevenCount,
    e.2.netPnlCurrency, winRate, avgRMultiple⟩

/-- Fixed bucket metadata of the source (minMinutes / maxMinutes per duration
bucket key). -/
def durationBucketMeta (bucketKey : String) : ℚ × Option ℚ :=
  if bucketKey = "0-5m" then (0, Option.some 5)
  else if bucketKey = "5-30m" then (5, Option.some 30)
  else if bucketKey = "30m-120m" then (30, Option.some 120)
  else if bucketKey = "2-6h" then (120, Option.some 360)
  else if bucketKey = "6-24h" then (360, Option.some 1440)
  else (1440, Option.none)

/-- Conversion of a duration-map entry to a DurationBucketStat. -/
def mkDurationStat (e : String × TimeAcc) : DurationBucketStat :=
  let tradesWithResult := e.2.winsCount + e.2.lossesCount
  let winRate := if 0 < tradesWithResult then
      (e.2.winsCount : ℚ) / ((tradesWithResult : ℕ) : ℚ)
    else 0
  let avgRMultiple := if 0 < e.2.countR then
      Option.some (e.2.sumR / ((e.2.countR : ℕ) : ℚ))
    else Option.none
  ⟨e.1, (durationBucketMeta e.1).1, (durationBucketMeta e.1).2, e.2.tradesCount,
    e.2.winsCount, e.2.lossesCount, e.2.breakevenCount, e.2.netPnlCurrency,
    winRate, avgRMultiple⟩

/-- Fixed session ordering of the source sort (Asia, London, NewYork,
Other). -/
def sessionOrderIndex : TradingSession → ℕ
  | TradingSession.Asia => 0
  | TradingSession.London => 1
  | TradingSession.NewYork => 2
  | TradingSession.Other => 3

/-- Fixed duration-bucket ordering of the source sort. -/
def durationBucketIndex (bucketKey : String) : ℕ :=
  if bucketKey = "0-5m" then 0
  else if bucketKey = "5-30m" then 1
  else if bucketKey = "30m-120m" then 2
  else if bucketKey = "2-6h" then 3
  else if bucketKey = "6-24h" then 4
  else 5

/-- Result of aggregateTimeAnalytics (TimeAnalyticsResult in the source). -/
structure TimeAnalyticsResult where
  weekdayStats : List WeekdayStat
  sessionStats : List SessionStat
  durationStats : List DurationBucketStat
deriving DecidableEq

/-- Time/session/duration analytics (aggregateTimeAnalytics in the source):
trades without usable effective open and close times are excluded; each valid
trade is bucketed by weekday, session and duration; outputs are sorted by
weekday ascending, fixed session order, and fixed bucket order. -/
def aggregateTimeAnalytics (trades : List Trade) : TimeAnalyticsResult :=
  ⟨sortBy (fun a b => decide (a.weekday ≤ b.weekday))
      ((weekdayMapOf trades).map mkWeekdayStat),
    sortBy (fun a b => decide (sessionOrderIndex a.session ≤ sessionOrderIndex b.session))
      ((sessionMapOf trades).map mkSessionStat),
    sortBy (fun a b => decide (durationBucketIndex a.bucketKey ≤ durationBucketIndex b.bucketKey))
      ((durationMapOf trades).map mkDurationStat)⟩

/-- Daily P&L map of aggregateTrades (allDailyPnlMap in the source): trades
with a usable effective date are folded into their calendar day's P&L sum. -/
def allDailyPnlMapOf (trades : List Trade) : List (Int × ℚ) :=
  trades.foldl
    (fun m t =>
      match effectiveDayOf t with
      | Option.none => m
      | Option.some d => upsert d 0 (fun v => v + t.pnlCurrency.getD 0) m)
    []

/-- Monday on or before the given calendar day (startOfWeek with weekStartsOn
Monday in the source, at day granularity). -/
def startOfWeekMonday (todayKey : Int) : Int :=
  todayKey - Int.emod (jsGetDayOfKey todayKey + 6) 7

/-- Sum of the daily P&L map over the days strictly before the given key (the
cumulative-P&L loops of aggregateTrades). -/
def cumulativePnlBefore (m : List (Int × ℚ)) (key : Int) : ℚ :=
  ((m.filter (fun e => decide (e.1 < key))).map Prod.snd).sum

/-- Default account base balance of the source (10,000 currency units). -/
def DEFAULT_BASE_BALANCE : ℚ := 10000

/-- Risk-progress computation of aggregateTrades in the dashboard module,
parametrized by the current calendar day (new Date() at midnight in the
source): daily and weekly P&L and their percentages of a rolling equity
base. -/
def riskProgressOf (trades : List Trade) (todayKey : Int) : RiskProgress :=
  let m := allDailyPnlMapOf trades
  let startOfWeekKey := startOfWeekMonday todayKey
  let cumulativePnlBeforeToday := cumulativePnlBefore m todayKey
  let cumulativePnlBeforeWeek := cumulativePnlBefore m startOfWeekKey
  let todayPnl := (lookupA todayKey m).getD 0
  let weekPnl := ((m.filter (fun e =>
      decide (startOfWeekKey ≤ e.1) && decide (e.1 ≤ todayKey))).map Prod.snd).sum
  let dailyBaseBalance := if 0 < cumulativePnlBeforeToday then
      cumulativePnlBeforeToday else DEFAULT_BASE_BALANCE
  let weeklyBaseBalance := if 0 < cumulativePnlBeforeWeek then
      cumulativePnlBeforeWeek else DEFAULT_BASE_BALANCE
  let dailyPnlPercent := if 0 < dailyBaseBalance then
      todayPnl / dailyBaseBalance * 100 else 0
  let weeklyPnlPercent := if 0 < weeklyBaseBalance then
      weekPnl / weeklyBaseBalance * 100 else 0
  ⟨dailyPnlPercent, weeklyPnlPercent, todayPnl, weekPnl⟩

/-- Trade-level restatement used by the risk-progress theorem: the P&L sum of
the trades whose effective day satisfies a predicate. -/
def tradePnlSumOn (trades : List Trade) (p : Int → Bool) : ℚ :=
  ((trades.filter (fun t =>
      match effectiveDayOf t with
      | Option.some d => p d
      | Option.none => false)).map (fun t => t.pnlCurrency.getD 0)).sum

/-- Concrete trade with no usable timestamp of any kind but a defined P&L. -/
def datelessTrade : Trade :=
  ⟨"XAUUSD", TsInput.missing, TsInput.missing, TsInput.strInvalid,
    Option.some 5, Option.none, TradeStatus.win, []⟩

end TradeCompass

namespace TradeCompass

/-- Claim C2: the risk guard evaluator tests states in the strict priority
order daily-locked, weekly-locked, daily-warning (loss usage in [50%,100%) of
the cap), weekly-warning, none, and returns the first state whose condition
holds; in particular when both the daily and the weekly loss reach or exceed
their (positive) configured caps the result is daily-locked. -/
theorem C2_risk_guard_priority (rp : RiskProgress) (rs : UserRiskSettings) :
    (evaluateRiskGuard (Option.some rp) (Option.some rs)).state =
      (if maxDailyOf rs ≤ dailyLossAbsOf rp ∧ 0 < maxDailyOf rs then
        RiskGuardStateType.dailyLocked
      else if maxWeeklyOf rs ≤ weeklyLossAbsOf rp ∧ 0 < maxWeeklyOf rs then
        RiskGuardStateType.weeklyLocked
      else if 50 ≤ dailyLossUsageOf rp rs ∧ dailyLossUsageOf rp rs < 100 ∧
          0 < maxDailyOf rs then
        RiskGuardStateType.dailyWarning
      else if 50 ≤ weeklyLossUsageOf rp rs ∧ weeklyLossUsageOf rp rs < 100 ∧
          0 < maxWeeklyOf rs then
        RiskGuardStateType.weeklyWarning
      else RiskGuardStateType.none) ∧
    (0 < maxDailyOf rs → 0 < maxWeeklyOf rs →
      maxDailyOf rs ≤ dailyLossAbsOf rp → maxWeeklyOf rs ≤ weeklyLossAbsOf rp →
      (evaluateRiskGuard (Option.some rp) (Option.some rs)).state =
        RiskGuardStateType.dailyLocked) := by
  have hstate : (evaluateRiskGuard (Option.some rp) (Option.some rs)).state =
      (if maxDailyOf rs ≤ dailyLossAbsOf rp ∧ 0 < maxDailyOf rs then
        RiskGuardStateType.dailyLocked
      else if maxWeeklyOf rs ≤ weeklyLossAbsOf rp ∧ 0 < maxWeeklyOf rs then
        RiskGuardStateType.weeklyLocked
      else if 50 ≤ dailyLossUsageOf rp rs ∧ dailyLossUsageOf rp rs < 100 ∧
          0 < maxDailyOf rs then
        RiskGuardStateType.dailyWarning
      else if 50 ≤ weeklyLossUsageOf rp rs ∧ weeklyLossUsageOf rp rs < 100 ∧
          0 < maxWeeklyOf rs then
        RiskGuardStateType.weeklyWarning
      else RiskGuardStateType.none) := by
    simp only [evaluateRiskGuard]
    split_ifs <;> rfl
  refine ⟨hstate, fun h1 h2 h3 h4 => ?_⟩
  rw [hstate, if_pos (And.intro h3 h1)]

/-- Witness for claim C2: with a daily loss of 6% against a 5% cap and a weekly
loss of 8% against a 5% cap the guard reports daily-locked. -/
theorem C2_witness :
    (evaluateRiskGuard
        (Option.some ⟨-6, -8, -600, -800⟩)
        (Option.some ⟨Option.some 5, Option.some 5, Option.none, Option.none⟩)).state =
      RiskGuardStateType.dailyLocked :=
  (C2_risk_guard_priority ⟨-6, -8, -600, -800⟩
      ⟨Option.some 5, Option.some 5, Option.none, Option.none⟩).2
    (by norm_num [maxDailyOf]) (by norm_num [maxWeeklyOf])
    (by norm_num [maxDailyOf, dailyLossAbsOf])
    (by norm_num [maxWeeklyOf, weeklyLossAbsOf])

/-- Claim C3 counterexample: at profit factor 1 the dashboard curve of the
source yields 30, not the value 60 that the claim's 1-to-2 interpolation from
60 to 80 starts from. -/
theorem C3_counterexample :
    scoreProfitFactor 1 = 30 ∧ scoreProfitFactorClaimCurve 1 = 60 ∧
      scoreProfitFactor 1 ≠ scoreProfitFactorClaimCurve 1 := by
  refine ⟨?_, ?_, ?_⟩ <;>
    norm_num [scoreProfitFactor, scoreProfitFactorClaimCurve]

/-- Claim C3 (amended): the dashboard profit-factor sub-score is 0 for pf ≤ 0,
a flat 10 on (0,1), linear from 30 to 60 on [1, 1.5), 60 to 80 on [1.5, 2),
80 to 100 on [2, 3), and 100 for pf ≥ 3. -/
theorem C3_profit_factor_curve (pf : ℚ) :
    (pf ≤ 0 → scoreProfitFactor pf = 0) ∧
    (0 < pf → pf < 1 → scoreProfitFactor pf = 10) ∧
    (1 ≤ pf → pf < 3/2 → scoreProfitFactor pf = 30 + (pf - 1) * 60) ∧
    (3/2 ≤ pf → pf < 2 → scoreProfitFactor pf = 60 + (pf - 3/2) * 40) ∧
    (2 ≤ pf → pf < 3 → scoreProfitFactor pf = 80 + (pf - 2) * 20) ∧
    (3 ≤ pf → scoreProfitFactor pf = 100) := by
  unfold scoreProfitFactor
  refine ⟨?_, ?_, ?_, ?_, ?_, ?_⟩ <;> intros <;> split_ifs <;> linarith

/-- Witness for claim C3 (amended): a profit factor of 2 lies on the 80-to-100
segment and scores 80 + (2 − 2) · 20. -/
theorem C3_witness : scoreProfitFactor 2 = 80 + ((2:ℚ) - 2) * 20 :=
  (C3_profit_factor_curve 2).2.2.2.2.1 (by norm_num) (by norm_num)

/-- Claim C8: duration bucketing is by half-open fixed-edge intervals on
holding minutes, so a trade held exactly 5 minutes falls in "5-30m" and one
held exactly 120 minutes falls in "2-6h". -/
theorem C8_duration_buckets (m : ℚ) :
    (0 ≤ m → m < 5 → classifyDurationBucket m = "0-5m") ∧
    (5 ≤ m → m < 30 → classifyDurationBucket m = "5-30m") ∧
    (30 ≤ m → m < 120 → classifyDurationBucket m = "30m-120m") ∧
    (120 ≤ m → m < 360 → classifyDurationBucket m = "2-6h") ∧
    (360 ≤ m → m < 1440 → classifyDurationBucket m = "6-24h") ∧
    (1440 ≤ m → classifyDurationBucket m = "24h+") ∧
    classifyDurationBucket 5 = "5-30m" ∧ classifyDurationBucket 120 = "2-6h" := by
  unfold classifyDurationBucket
  refine ⟨?_, ?_, ?_, ?_, ?_, ?_, by norm_num, by norm_num⟩ <;>
    intros <;> split_ifs <;> first | rfl | linarith

/-- Witness for claim C8: a trade held exactly 5 minutes is classified
"5-30m". -/
theorem C8_witness : classifyDurationBucket 5 = "5-30m" :=
  (C8_duration_buckets 5).2.1 (by norm_num) (by norm_num)

end TradeCompass

namespace TradeCompass

/-- Claim C1 counterexample: the trades-page KPI aggregator classifies by the
stored status field, not by the P&L sign: a trade with positive P&L 100 but
stored status loss yields a win rate of 0, while the uniform sign rule would
give 100. -/
theorem C1_counterexample :
    0 < staleStatusTrade.pnlCurrency.getD 0 ∧
    (calculateTradesKpis [staleStatusTrade]).winRate = 0 ∧
    winsBySign [staleStatusTrade] = 1 ∧ lossesBySign [staleStatusTrade] = 0 ∧
    breakevensBySign [staleStatusTrade] = 0 ∧
    (calculateTradesKpis [staleStatusTrade]).winRate ≠
      ((winsBySign [staleStatusTrade] : ℚ) /
        ((winsBySign [staleStatusTrade] + lossesBySign [staleStatusTrade] +
          breakevensBySign [staleStatusTrade] : ℕ) : ℚ)) * 100 := by
  refine ⟨?_, ?_, ?_, ?_, ?_, ?_⟩ <;>
    simp [calculateTradesKpis, staleStatusTrade, winsBySign, lossesBySign,
      breakevensBySign, List.filter_cons]

/-- Claim C4 counterexample: on the list win +100, loss -50, breakeven 0 the
dashboard KPI aggregator reports a win rate of 50 (breakevens excluded from
the denominator), not the 1/3 x 100 the claim's formula gives. -/
theorem C4_counterexample :
    (dashboardKpisOf [winTrade, lossTrade, beTrade]).winRate = 50 ∧
    winsBySign [winTrade, lossTrade, beTrade] = 1 ∧
    lossesBySign [winTrade, lossTrade, beTrade] = 1 ∧
    breakevensBySign [winTrade, lossTrade, beTrade] = 1 ∧
    (dashboardKpisOf [winTrade, lossTrade, beTrade]).winRate ≠
      ((1 : ℚ) / ((1 + 1 + 1 : ℕ) : ℚ)) * 100 := by
  refine ⟨?_, ?_, ?_, ?_, ?_⟩ <;>
    (simp [dashboardKpisOf, winTrade, lossTrade, beTrade, winsBySign,
      lossesBySign, breakevensBySign, List.filter_cons]
     try norm_num)

/-- Claim C4 (amended): the trades-page KPI aggregator computes the win rate as
statusWins / (statusWins + statusLosses + statusBreakevens) x 100 over the
stored status field (0 when no trade carries a result), while the dashboard
aggregator computes signWins / (signWins + signLosses) x 100 with breakevens
excluded from the denominator (0 when no trade has nonzero P&L). -/
theorem C4_win_rate_denominators (trades : List Trade) :
    (calculateTradesKpis trades).winRate =
      (if 0 < statusWinsOf trades + statusLossesOf trades +
          statusBreakevensOf trades then
        ((statusWinsOf trades : ℚ) /
          ((statusWinsOf trades + statusLossesOf trades +
            statusBreakevensOf trades : ℕ) : ℚ)) * 100
      else 0) ∧
    (dashboardKpisOf trades).winRate =
      (if 0 < winsBySign trades + lossesBySign trades then
        ((winsBySign trades : ℚ) /
          ((winsBySign trades + lossesBySign trades : ℕ) : ℚ)) * 100
      else 0) := by
  constructor
  · cases trades with
    | nil =>
      simp [calculateTradesKpis, statusWinsOf, statusLossesOf, statusBreakevensOf]
    | cons t ts =>
      simp only [calculateTradesKpis, List.isEmpty_cons, Bool.false_eq_true,
        if_false, statusWinsOf, statusLossesOf, statusBreakevensOf]
  · simp only [dashboardKpisOf, winsBySign, lossesBySign]

/-- Claim C10: in the dashboard Compass Score, a zero gross loss makes the
profit-factor metric value 0 (not null) and hence the profit-factor sub-score
0, the minimum. -/
theorem C10_zero_gross_loss (trades : List Trade)
    (h : dashGrossLossAbs trades = 0) :
    (dashProfitFactorMetric trades).value = 0 ∧
    (dashProfitFactorMetric trades).score = 0 := by
  have hv : dashProfitFactorValue trades = 0 := by
    simp [dashProfitFactorValue, h]
  constructor
  · simpa [dashProfitFactorMetric] using hv
  · simp [dashProfitFactorMetric, hv, scoreProfitFactor]

/-- Witness for claim C10: an account with only a winning and a breakeven
trade has zero gross loss, profit-factor value 0 and sub-score 0. -/
theorem C10_witness :
    dashGrossLossAbs [winTrade, beTrade] = 0 ∧
    (dashProfitFactorMetric [winTrade, beTrade]).value = 0 ∧
    (dashProfitFactorMetric [winTrade, beTrade]).score = 0 := by
  have h : dashGrossLossAbs [winTrade, beTrade] = 0 := by
    simp [dashGrossLossAbs, winTrade, beTrade, List.filter_cons]
  exact ⟨h, (C10_zero_gross_loss [winTrade, beTrade] h).1,
    (C10_zero_gross_loss [winTrade, beTrade] h).2⟩

end TradeCompass

namespace TradeCompass

/-- Lookup after an upsert: the upserted key reads back the updated value,
every other key is unchanged. -/
theorem lookupA_upsert {κ α : Type} [DecidableEq κ] (k q : κ) (init : α)
    (f : α → α) (m : List (κ × α)) :
    lookupA q (upsert k init f m) =
      (if k = q then Option.some (f ((lookupA q m).getD init))
       else lookupA q m) := by
  induction m with
  | nil => by_cases h : k = q <;> simp [upsert, lookupA, h]
  | cons e m ih =>
    by_cases he : e.1 = k
    · by_cases hq : e.1 = q
      · have hkq : k = q := he ▸ hq
        simp [upsert, lookupA, he, hq, hkq]
      · have hkq : ¬k = q := fun h => hq (he.trans h)
        simp [upsert, lookupA, he, hq, hkq]
    · by_cases hq : e.1 = q
      · have hkq : ¬k = q := fun h => he (hq.trans h.symm)
        have hqk : ¬q = k := fun h => hkq h.symm
        simp [upsert, lookupA, he, hq, hkq, hqk]
      · simp [upsert, lookupA, he, hq, ih]

/-- A successful lookup exhibits a member of the association list. -/
theorem mem_of_lookupA_eq_some {κ α : Type} [DecidableEq κ] {q : κ} {v : α}
    {m : List (κ × α)} (h : lookupA q m = Option.some v) : (q, v) ∈ m := by
  induction m with
  | nil => simp [lookupA] at h
  | cons e m ih =>
    by_cases he : e.1 = q
    · simp only [lookupA, he, if_true, Option.some.injEq] at h
      subst h
      have : e = (q, e.2) := by
        cases e
        simp_all
      rw [this] at *
      exact List.mem_cons_self _ _
    · simp only [lookupA, he, if_false] at h
      exact List.mem_cons_of_mem _ (ih h)

/-- A failed lookup means no entry carries the key. -/
theorem ne_key_of_lookupA_eq_none {κ α : Type} [DecidableEq κ] {q : κ}
    {m : List (κ × α)} (h : lookupA q m = Option.none) :
    ∀ e ∈ m, e.1 ≠ q := by
  induction m with
  | nil => intro e he; simp at he
  | cons e m ih =>
    by_cases he : e.1 = q
    · simp [lookupA, he] at h
    · intro x hx
      rcases List.mem_cons.mp hx with hx | hx
      · subst hx; exact he
      · exact ih (by simpa [lookupA, he] using h) x hx

/-- Value-wise invariant preservation of upsert. -/
theorem allP_upsert {κ α : Type} [DecidableEq κ] (P : α → Prop) (k : κ)
    (init : α) (f : α → α) (m : List (κ × α))
    (hf : ∀ v, P v → P (f v)) (hi : P (f init)) (hm : ∀ e ∈ m, P e.2) :
    ∀ e ∈ upsert k init f m, P e.2 := by
  induction m with
  | nil => intro e he; simp only [upsert, List.mem_singleton] at he; simp [he, hi]
  | cons x m ih =>
    intro e he
    by_cases hx : x.1 = k
    · simp only [upsert, hx, if_true] at he
      rcases List.mem_cons.mp he with he | he
      · subst he; exact hf _ (hm x (List.mem_cons_self _ _))
      · exact hm e (List.mem_cons_of_mem _ he)
    · simp only [upsert, hx, if_false] at he
      rcases List.mem_cons.mp he with he | he
      · subst he; exact hm e (List.mem_cons_self _ _)
      · exact ih (fun y hy => hm y (List.mem_cons_of_mem _ hy)) e he

/-- Sum of a projection over the values after an upsert: when the update adds
a constant c to the projection and the projection of init is zero, the map sum
grows by exactly c. -/
theorem sumSnd_upsert {κ α M : Type} [DecidableEq κ] [AddCommMonoid M]
    (g : α → M) (k : κ) (init : α) (f : α → α) (m : List (κ × α)) (c : M)
    (hg : ∀ v, g (f v) = g v + c) (hi : g init = 0) :
    ((upsert k init f m).map (fun e => g e.2)).sum =
      (m.map (fun e => g e.2)).sum + c := by
  induction m with
  | nil => simp [upsert, hg, hi]
  | cons x m ih =>
    by_cases hx : x.1 = k
    · simp [upsert, hx, hg, add_assoc, add_comm, add_left_comm]
    · simp only [upsert, hx, if_false, List.map_cons, List.sum_cons, ih]
      rw [add_assoc]

/-- Membership in insertSorted. -/
theorem mem_insertSorted {α : Type} (le : α → α → Bool) (x y : α)
    (l : List α) : y ∈ insertSorted le x l ↔ y = x ∨ y ∈ l := by
  induction l with
  | nil => simp [insertSorted]
  | cons z l ih =>
    by_cases h : le x z
    · simp [insertSorted, h, List.mem_cons]
      try tauto
    · simp [insertSorted, h, List.mem_cons, ih]
      try tauto

/-- Membership is preserved by the comparator sort. -/
theorem mem_sortBy {α : Type} (le : α → α → Bool) (y : α) (l : List α) :
    y ∈ sortBy le l ↔ y ∈ l := by
  induction l with
  | nil => simp [sortBy]
  | cons x l ih => simp [sortBy, mem_insertSorted, ih, List.mem_cons]

/-- insertSorted permutes consing. -/
theorem perm_insertSorted {α : Type} (le : α → α → Bool) (x : α)
    (l : List α) : (insertSorted le x l).Perm (x :: l) := by
  induction l with
  | nil => simp [insertSorted]
  | cons z l ih =>
    by_cases h : le x z
    · simp [insertSorted, h]
    · simp only [insertSorted, h, if_false]
      exact ((ih.cons z).trans (List.Perm.swap x z l))

/-- The comparator sort is a permutation of its input. -/
theorem perm_sortBy {α : Type} (le : α → α → Bool) (l : List α) :
    (sortBy le l).Perm l := by
  induction l with
  | nil => simp [sortBy]
  | cons x l ih => exact (perm_insertSorted le x (sortBy le l)).trans (ih.cons x)

/-- Sum of boolean indicators equals the filtered length. -/
theorem sum_ite_eq_length_filter {β : Type} (p : β → Bool) (l : List β) :
    (l.map (fun b => if p b then (1 : ℕ) else 0)).sum = (l.filter p).length := by
  induction l with
  | nil => simp
  | cons x l ih =>
    by_cases h : p x <;> (simp [List.filter_cons, h, ih]; try omega)

end TradeCompass

namespace TradeCompass

/-- Value-wise invariant preservation over the upsert folds that build the
analytics maps. -/
theorem allP_foldl {κ α β : Type} [DecidableEq κ] (P : α → Prop) (key : β → κ)
    (upd : β → α → α) (init : α) :
    ∀ (l : List β) (m : List (κ × α)),
      (∀ b ∈ l, ∀ v, P v → P (upd b v)) → (∀ b ∈ l, P (upd b init)) →
      (∀ e ∈ m, P e.2) →
      ∀ e ∈ l.foldl (fun m b => upsert (key b) init (upd b) m) m, P e.2 := by
  intro l
  induction l with
  | nil => intro m _ _ hm; simpa using hm
  | cons b l ih =>
    intro m hupd hinit hm
    exact ih _ (fun x hx => hupd x (List.mem_cons_of_mem _ hx))
      (fun x hx => hinit x (List.mem_cons_of_mem _ hx))
      (allP_upsert P (key b) init (upd b) m
        (hupd b (List.mem_cons_self _ _)) (hinit b (List.mem_cons_self _ _)) hm)

/-- Sum of a projection over the map values after an upsert fold: each step
adds its own increment. -/
theorem sumSnd_foldl {κ α β M : Type} [DecidableEq κ] [AddCommMonoid M]
    (g : α → M) (key : β → κ) (upd : β → α → α) (init : α) (c : β → M)
    (hg : ∀ b v, g (upd b v) = g v + c b) (hi : g init = 0) :
    ∀ (l : List β) (m : List (κ × α)),
      ((l.foldl (fun m b => upsert (key b) init (upd b) m) m).map
        (fun e => g e.2)).sum =
      (m.map (fun e => g e.2)).sum + (l.map c).sum := by
  intro l
  induction l with
  | nil => intro m; simp
  | cons b l ih =>
    intro m
    rw [List.foldl_cons, ih,
      sumSnd_upsert g (key b) init (upd b) m (c b) (hg b) hi]
    simp [add_assoc]

/-- Sum of the all-ones map is the length. -/
theorem sum_map_one {β : Type} (l : List β) :
    (l.map (fun _ => (1 : ℕ))).sum = l.length := by
  induction l with
  | nil => simp
  | cons x l ih => simp [ih, Nat.add_comm]

/-- Sum of decidable-proposition indicators equals the filtered length. -/
theorem sum_ite_prop_eq_length_filter {β : Type} (p : β → Prop)
    [DecidablePred p] (l : List β) :
    (l.map (fun b => if p b then (1 : ℕ) else 0)).sum =
      (l.filter (fun b => decide (p b))).length := by
  induction l with
  | nil => simp
  | cons x l ih =>
    by_cases h : p x <;> (simp [List.filter_cons, h, ih]; try omega)

/-- The win/loss/breakeven trichotomy keeps the three time-analytics counters
summing to the trade count. -/
theorem timeAcc_inv_update (t : Trade) (a : TimeAcc)
    (h : a.winsCount + a.lossesCount + a.breakevenCount = a.tradesCount) :
    (updateTimeAcc t a).winsCount + (updateTimeAcc t a).lossesCount +
      (updateTimeAcc t a).breakevenCount = (updateTimeAcc t a).tradesCount := by
  rcases lt_trichotomy (t.pnlCurrency.getD 0) 0 with hp | hp | hp
  · simp only [updateTimeAcc, if_neg (asymm hp), if_pos hp, if_neg hp.ne]
    omega
  · simp only [updateTimeAcc, hp, if_neg (lt_irrefl (0 : ℚ)), if_true]
    omega
  · simp only [updateTimeAcc, if_pos hp, if_neg (asymm hp), if_neg hp.ne']
    omega

/-- The same trichotomy invariant for the tag accumulator. -/
theorem tagAcc_inv_update (t : Trade) (a : TagAcc)
    (h : a.winsCount + a.lossesCount + a.breakevenCount = a.tradesCount) :
    (updateTagAcc t a).winsCount + (updateTagAcc t a).lossesCount +
      (updateTagAcc t a).breakevenCount = (updateTagAcc t a).tradesCount := by
  rcases lt_trichotomy (t.pnlCurrency.getD 0) 0 with hp | hp | hp
  · simp only [updateTagAcc, if_neg (asymm hp), if_pos hp, if_neg hp.ne]
    omega
  · simp only [updateTagAcc, hp, if_neg (lt_irrefl (0 : ℚ)), if_true]
    omega
  · simp only [updateTagAcc, if_pos hp, if_neg (asymm hp), if_neg hp.ne']
    omega

/-- Value-wise invariant preservation over the nested tag-map fold. -/
theorem allP_tagFold (P : TagAcc → Prop) :
    ∀ (l : List Trade) (m : List (String × TagAcc)),
      (∀ t ∈ l, ∀ v, P v → P (updateTagAcc t v)) →
      (∀ t ∈ l, P (updateTagAcc t initTagAcc)) →
      (∀ e ∈ m, P e.2) →
      ∀ e ∈ l.foldl (fun m t => t.tags.foldl
        (fun m tag => upsert tag initTagAcc (updateTagAcc t) m) m) m, P e.2 := by
  intro l
  induction l with
  | nil => intro m _ _ hm; simpa using hm
  | cons t l ih =>
    intro m hupd hinit hm
    refine ih _ (fun x hx => hupd x (List.mem_cons_of_mem _ hx))
      (fun x hx => hinit x (List.mem_cons_of_mem _ hx)) ?_
    exact allP_foldl P (fun tag => tag) (fun _ => updateTagAcc t) initTagAcc
      t.tags m (fun _ _ v hv => hupd t (List.mem_cons_self _ _) v hv)
      (fun _ _ => hinit t (List.mem_cons_self _ _)) hm

/-- A nonempty list of negative rationals has a negative sum. -/
theorem sum_neg_of_all_neg (l : List ℚ) (h : ∀ x ∈ l, x < 0) :
    l ≠ [] → l.sum < 0 := by
  induction l with
  | nil => simp
  | cons x xs ih =>
    intro _
    have hx := h x (List.mem_cons_self _ _)
    have hxs : xs.sum ≤ 0 := by
      cases xs with
      | nil => simp
      | cons y ys =>
        exact le_of_lt (ih (fun z hz => h z (List.mem_cons_of_mem _ hz)) (by simp))
    simp only [List.sum_cons]
    linarith

end TradeCompass

namespace TradeCompass

/-- Claim C5 counterexample: a trade with a defined P&L but no usable
timestamp is excluded from time analytics entirely, so the three counts sum to
0 while one trade has a defined P&L. -/
theorem C5_counterexample :
    ((aggregateTimeAnalytics [datelessTrade]).weekdayStats.map
      (fun b => b.winsCount + b.lossesCount + b.breakevenCount)).sum = 0 ∧
    ([datelessTrade].filter (fun t => t.pnlCurrency.isSome)).length = 1 ∧
    (0 : ℕ) ≠ 1 := by
  have h : aggregateTimeAnalytics [datelessTrade] =
      ⟨[], [], []⟩ := rfl
  refine ⟨?_, ?_, ?_⟩
  · rw [h]
    rfl
  · rfl
  · simp

/-- Claim C5 (amended): in every aggregation that produces the three counts
(weekday, session and duration buckets, and tag buckets), winCount + lossCount
+ breakevenCount equals the number of trades the aggregation put into that
bucket (its tradesCount); summed over the weekday buckets this is the number
of time-valid trades, not the number of trades with a defined P&L. -/
theorem C5_count_identity (trades : List Trade) :
    (∀ b ∈ (aggregateTimeAnalytics trades).weekdayStats,
      b.winsCount + b.lossesCount + b.breakevenCount = b.tradesCount) ∧
    (∀ b ∈ (aggregateTimeAnalytics trades).sessionStats,
      b.winsCount + b.lossesCount + b.breakevenCount = b.tradesCount) ∧
    (∀ b ∈ (aggregateTimeAnalytics trades).durationStats,
      b.winsCount + b.lossesCount + b.breakevenCount = b.tradesCount) ∧
    (∀ s ∈ aggregateTagStats trades,
      s.winsCount + s.lossesCount + s.breakevenCount = s.tradesCount) ∧
    ((aggregateTimeAnalytics trades).weekdayStats.map
      (fun b => b.tradesCount)).sum = (validTimeTrades trades).length := by
  have hP : ∀ t (v : TimeAcc),
      v.winsCount + v.lossesCount + v.breakevenCount = v.tradesCount →
      (updateTimeAcc t v).winsCount + (updateTimeAcc t v).lossesCount +
        (updateTimeAcc t v).breakevenCount = (updateTimeAcc t v).tradesCount :=
    fun t v hv => timeAcc_inv_update t v hv
  have hPi : ∀ t, (updateTimeAcc t initTimeAcc).winsCount +
      (updateTimeAcc t initTimeAcc).lossesCount +
      (updateTimeAcc t initTimeAcc).breakevenCount =
      (updateTimeAcc t initTimeAcc).tradesCount :=
    fun t => timeAcc_inv_update t initTimeAcc rfl
  refine ⟨?_, ?_, ?_, ?_, ?_⟩
  · intro b hb
    simp only [aggregateTimeAnalytics] at hb
    rw [mem_sortBy] at hb
    rcases List.mem_map.mp hb with ⟨e, he, rfl⟩
    unfold weekdayMapOf at he
    have hinv := allP_foldl
      (fun a : TimeAcc =>
        a.winsCount + a.lossesCount + a.breakevenCount = a.tradesCount)
      (fun t => jsGetDay ((getEffectiveOpenTime t).getD 0)) updateTimeAcc
      initTimeAcc (validTimeTrades trades) [] (fun t _ => hP t)
      (fun t _ => hPi t) (by simp) e he
    simpa [mkWeekdayStat] using hinv
  · intro b hb
    simp only [aggregateTimeAnalytics] at hb
    rw [mem_sortBy] at hb
    rcases List.mem_map.mp hb with ⟨e, he, rfl⟩
    unfold sessionMapOf at he
    have hinv := allP_foldl
      (fun a : TimeAcc =>
        a.winsCount + a.lossesCount + a.breakevenCount = a.tradesCount)
      (fun t => classifySession ((getEffectiveOpenTime t).getD 0)) updateTimeAcc
      initTimeAcc (validTimeTrades trades) [] (fun t _ => hP t)
      (fun t _ => hPi t) (by simp) e he
    simpa [mkSessionStat] using hinv
  · intro b hb
    simp only [aggregateTimeAnalytics] at hb
    rw [mem_sortBy] at hb
    rcases List.mem_map.mp hb with ⟨e, he, rfl⟩
    unfold durationMapOf at he
    have hinv := allP_foldl
      (fun a : TimeAcc =>
        a.winsCount + a.lossesCount + a.breakevenCount = a.tradesCount)
      (fun t => classifyDurationBucket (holdingMinutesOf t)) updateTimeAcc
      initTimeAcc (validTimeTrades trades) [] (fun t _ => hP t)
      (fun t _ => hPi t) (by simp) e he
    simpa [mkDurationStat] using hinv
  · intro s hs
    unfold aggregateTagStats at hs
    by_cases hi : (tradesWithTagsOf trades).isEmpty
    · rw [if_pos hi] at hs
      simp at hs
    · rw [if_neg hi, mem_sortBy] at hs
      rcases List.mem_map.mp hs with ⟨e, he, rfl⟩
      unfold tagMapOf at he
      have hinv := allP_tagFold
        (fun a : TagAcc =>
          a.winsCount + a.lossesCount + a.breakevenCount = a.tradesCount)
        (tradesWithTagsOf trades) []
        (fun t _ v hv => tagAcc_inv_update t v hv)
        (fun t _ => tagAcc_inv_update t initTagAcc rfl) (by simp) e he
      simpa [mkTagStat] using hinv
  · simp only [aggregateTimeAnalytics]
    have hperm := (perm_sortBy (fun a b => decide (a.weekday ≤ b.weekday))
        ((weekdayMapOf trades).map mkWeekdayStat)).map
      (fun b : WeekdayStat => b.tradesCount)
    rw [hperm.sum_eq, List.map_map]
    have hfun : ((fun b : WeekdayStat => b.tradesCount) ∘ mkWeekdayStat) =
        (fun e : Int × TimeAcc => e.2.tradesCount) := by
      funext e
      rfl
    rw [hfun]
    unfold weekdayMapOf
    rw [sumSnd_foldl (fun a : TimeAcc => a.tradesCount)
      (fun t => jsGetDay ((getEffectiveOpenTime t).getD 0)) updateTimeAcc
      initTimeAcc (fun _ => 1) (fun b v => rfl) rfl (validTimeTrades trades) []]
    simp [sum_map_one]

end TradeCompass

namespace TradeCompass

/-- Lookup after one trade's inner fold over its (duplicate-free) tag list:
the looked-up tag receives one update exactly when it occurs among the
tags. -/
theorem lookupA_tagsFold (t : Trade) (tag : String) :
    ∀ (ks : List String), ks.Nodup → ∀ (m : List (String × TagAcc)),
      lookupA tag (ks.foldl
        (fun m k => upsert k initTagAcc (updateTagAcc t) m) m) =
      (if tag ∈ ks then
        Option.some (updateTagAcc t ((lookupA tag m).getD initTagAcc))
      else lookupA tag m) := by
  intro ks
  induction ks with
  | nil => intro _ m; simp
  | cons k ks ih =>
    intro hnd m
    have hk : k ∉ ks := (List.nodup_cons.mp hnd).1
    have hnd2 : ks.Nodup := (List.nodup_cons.mp hnd).2
    rw [List.foldl_cons, ih hnd2, lookupA_upsert]
    by_cases htag : tag ∈ ks
    · have hne : ¬k = tag := fun h => hk (h ▸ htag)
      simp [htag, hne, List.mem_cons]
    · by_cases hkt : k = tag
      · simp [htag, hkt, List.mem_cons]
      · have h2 : ¬tag = k := fun h => hkt h.symm
        simp [htag, hkt, h2, List.mem_cons]

/-- Lookup in the tag map built over a trade list with duplicate-free tag
sets: the bucket of a tag is the option-fold of the updates of exactly the
trades carrying that tag. -/
theorem lookupA_tagMap (tag : String) :
    ∀ (l : List Trade), (∀ t ∈ l, t.tags.Nodup) →
      ∀ (m : List (String × TagAcc)),
      lookupA tag (l.foldl (fun m t => t.tags.foldl
        (fun m k => upsert k initTagAcc (updateTagAcc t) m) m) m) =
      (l.filter (fun t => decide (tag ∈ t.tags))).foldl
        (fun o t => Option.some (updateTagAcc t (o.getD initTagAcc)))
        (lookupA tag m) := by
  intro l
  induction l with
  | nil => intro _ m; simp
  | cons t l ih =>
    intro hnd m
    rw [List.foldl_cons, ih (fun x hx => hnd x (List.mem_cons_of_mem _ hx)),
      lookupA_tagsFold t tag t.tags (hnd t (List.mem_cons_self _ _))]
    by_cases ht : tag ∈ t.tags
    · simp [List.filter_cons, ht]
    · simp [List.filter_cons, ht]

/-- Filtering the tagged-trade prefilter by tag membership is the same as
filtering the whole list by tag membership. -/
theorem tagsFilter_eq (tag : String) (l : List Trade) :
    (tradesWithTagsOf l).filter (fun t => decide (tag ∈ t.tags)) =
      l.filter (fun t => decide (tag ∈ t.tags)) := by
  unfold tradesWithTagsOf
  rw [List.filter_filter]
  apply List.filter_congr
  intro t _
  by_cases h : tag ∈ t.tags
  · have hne : ¬t.tags.isEmpty := by
      cases hts : t.tags with
      | nil => rw [hts] at h; simp at h
      | cons a as => simp
    simp [h, hne]
  · simp [h]

/-- Option-fold from a present accumulator is the plain accumulator fold. -/
theorem optFold_some (l : List Trade) (a : TagAcc) :
    l.foldl (fun o t => Option.some (updateTagAcc t (o.getD initTagAcc)))
      (Option.some a) = Option.some (l.foldl (fun a t => updateTagAcc t a) a) := by
  induction l generalizing a with
  | nil => rfl
  | cons t l ih => simp [List.foldl_cons, ih]

/-- Lookup in tagMapOf: absent for tags no trade carries, and the full
carrier-list aggregate otherwise. -/
theorem lookupA_tagMapOf (trades : List Trade)
    (h : ∀ t ∈ trades, t.tags.Nodup) (tag : String) :
    lookupA tag (tagMapOf trades) =
      (if (trades.filter (fun t => decide (tag ∈ t.tags))).isEmpty then
        Option.none
      else Option.some (tagBucketAcc
        (trades.filter (fun t => decide (tag ∈ t.tags))))) := by
  unfold tagMapOf
  rw [lookupA_tagMap tag (tradesWithTagsOf trades)
    (fun t ht => h t (List.mem_of_mem_filter ht)), tagsFilter_eq]
  cases hf : trades.filter (fun t => decide (tag ∈ t.tags)) with
  | nil => rfl
  | cons t ts =>
    simp only [List.isEmpty_cons, Bool.false_eq_true, if_false, List.foldl_cons]
    rw [show lookupA tag ([] : List (String × TagAcc)) = Option.none from rfl]
    rw [show (Option.none.getD initTagAcc) = initTagAcc from rfl, optFold_some]
    rfl

/-- Projection of the carrier-list aggregate: any projection that starts at
zero and gains a per-trade increment sums those increments. -/
theorem tagBucketAcc_proj {M : Type} [AddCommMonoid M] (g : TagAcc → M)
    (c : Trade → M) (hg : ∀ t a, g (updateTagAcc t a) = g a + c t)
    (hi : g initTagAcc = 0) :
    ∀ (l : List Trade), g (tagBucketAcc l) = (l.map c).sum := by
  have haux : ∀ (l : List Trade) (a : TagAcc),
      g (l.foldl (fun a t => updateTagAcc t a) a) = g a + (l.map c).sum := by
    intro l
    induction l with
    | nil => intro a; simp
    | cons t l ih =>
      intro a
      rw [List.foldl_cons, ih, hg]
      simp [add_assoc]
  intro l
  unfold tagBucketAcc
  rw [haux, hi, zero_add]

end TradeCompass

namespace TradeCompass

/-- A zero absolute gross loss means no trade has negative P&L. -/
theorem no_neg_of_kpiGrossLoss_zero (trades : List Trade)
    (h : kpiGrossLoss trades = 0) :
    ∀ t ∈ trades, ¬(t.pnlCurrency.getD 0 < 0) := by
  unfold kpiGrossLoss at h
  rw [abs_eq_zero] at h
  intro t ht hneg
  have hmem : t ∈ trades.filter (fun t => t.pnlCurrency.getD 0 < 0) :=
    List.mem_filter_of_mem ht (by simpa using hneg)
  have hall : ∀ x ∈ (trades.filter (fun t => t.pnlCurrency.getD 0 < 0)).map
      (fun t => t.pnlCurrency.getD 0), x < 0 := by
    intro x hx
    rcases List.mem_map.mp hx with ⟨u, hu, rfl⟩
    have := List.mem_filter.mp hu
    simpa using this.2
  have hne : (trades.filter (fun t => t.pnlCurrency.getD 0 < 0)).map
      (fun t => t.pnlCurrency.getD 0) ≠ [] :=
    List.ne_nil_of_mem (List.mem_map_of_mem _ hmem)
  exact absurd h (ne_of_lt (sum_neg_of_all_neg _ hall hne))

/-- Claim C7: when the gross loss of the trade list is exactly zero, the
profit factor is null in the trades-page KPI aggregator, and every tag bucket
of the tag aggregator also reports a null profit factor. -/
theorem C7_null_profit_factor (trades : List Trade)
    (h : kpiGrossLoss trades = 0) :
    (calculateTradesKpis trades).profitFactor = Option.none ∧
    ∀ s ∈ aggregateTagStats trades, s.profitFactor = Option.none := by
  have hneg := no_neg_of_kpiGrossLoss_zero trades h
  constructor
  · by_cases he : trades.isEmpty
    · simp [calculateTradesKpis, he]
    · simp [calculateTradesKpis, he, h]
  · intro s hs
    unfold aggregateTagStats at hs
    by_cases hi : (tradesWithTagsOf trades).isEmpty
    · rw [if_pos hi] at hs
      simp at hs
    · rw [if_neg hi, mem_sortBy] at hs
      rcases List.mem_map.mp hs with ⟨e, he, rfl⟩
      unfold tagMapOf at he
      have hinv := allP_tagFold (fun a : TagAcc => a.grossLossAbs = 0)
        (tradesWithTagsOf trades) []
        (fun t ht v hv => by
          have hn := hneg t (List.mem_of_mem_filter ht)
          simp [updateTagAcc, hv, hn])
        (fun t ht => by
          have hn := hneg t (List.mem_of_mem_filter ht)
          simp [updateTagAcc, initTagAcc, hn])
        (by simp) e he
      simp [mkTagStat, hinv]

/-- Witness for claim C7: a list with only a winning and a breakeven trade has
zero gross loss and null profit factors everywhere. -/
theorem C7_witness :
    kpiGrossLoss [winTrade, beTrade] = 0 ∧
    (calculateTradesKpis [winTrade, beTrade]).profitFactor = Option.none ∧
    ∀ s ∈ aggregateTagStats [winTrade, beTrade],
      s.profitFactor = Option.none := by
  have h : kpiGrossLoss [winTrade, beTrade] = 0 := by
    simp [kpiGrossLoss, winTrade, beTrade, List.filter_cons]
  exact ⟨h, (C7_null_profit_factor [winTrade, beTrade] h).1,
    (C7_null_profit_factor [winTrade, beTrade] h).2⟩

/-- Claim C9: a trade contributes its full, unsplit counts and P&L to the
bucket of each of its tags (the bucket of a tag aggregates exactly the trades
carrying that tag, at full weight), and tags carried by no trade (in
particular, all tags relative to untagged trades) have no bucket. -/
theorem C9_tag_buckets (trades : List Trade)
    (h : ∀ t ∈ trades, t.tags.Nodup) (tag : String) :
    ((trades.filter (fun t => decide (tag ∈ t.tags))) ≠ [] →
      ∃ s ∈ aggregateTagStats trades, s.tag = tag ∧
        s.tradesCount = (trades.filter (fun t => decide (tag ∈ t.tags))).length ∧
        s.winsCount = winsBySign (trades.filter (fun t => decide (tag ∈ t.tags))) ∧
        s.netPnlCurrency = ((trades.filter (fun t => decide (tag ∈ t.tags))).map
          (fun t => t.pnlCurrency.getD 0)).sum) ∧
    ((trades.filter (fun t => decide (tag ∈ t.tags))) = [] →
      ∀ s ∈ aggregateTagStats trades, s.tag ≠ tag) := by
  constructor
  · intro hne
    have hemp : (trades.filter (fun t => decide (tag ∈ t.tags))).isEmpty = false := by
      cases hf : trades.filter (fun t => decide (tag ∈ t.tags)) with
      | nil => exact absurd hf hne
      | cons a as => rfl
    have hlk : lookupA tag (tagMapOf trades) =
        Option.some (tagBucketAcc
          (trades.filter (fun t => decide (tag ∈ t.tags)))) := by
      rw [lookupA_tagMapOf trades h tag]
      simp [hemp]
    have hmem := mem_of_lookupA_eq_some hlk
    have hc : ∃ u ∈ trades, tag ∈ u.tags := by
      cases hf : trades.filter (fun t => decide (tag ∈ t.tags)) with
      | nil => exact absurd hf hne
      | cons a as =>
        have ha : a ∈ trades.filter (fun t => decide (tag ∈ t.tags)) := by
          rw [hf]; exact List.mem_cons_self _ _
        have := List.mem_filter.mp ha
        exact ⟨a, this.1, by simpa using this.2⟩
    have hne2 : (tradesWithTagsOf trades).isEmpty = false := by
      rcases hc with ⟨u, hu, hutag⟩
      have hunn : ¬u.tags.isEmpty := by
        cases hts : u.tags with
        | nil => rw [hts] at hutag; simp at hutag
        | cons a as => simp
      have humem : u ∈ tradesWithTagsOf trades := by
        unfold tradesWithTagsOf
        exact List.mem_filter_of_mem hu (by simpa using hunn)
      cases hg : tradesWithTagsOf trades with
      | nil => rw [hg] at humem; simp at humem
      | cons a as => rfl
    refine ⟨mkTagStat (tag,
      tagBucketAcc (trades.filter (fun t => decide (tag ∈ t.tags)))), ?_,
      rfl, ?_, ?_, ?_⟩
    · unfold aggregateTagStats
      simp only [hne2, Bool.false_eq_true, if_false]
      rw [mem_sortBy]
      exact List.mem_map_of_mem mkTagStat hmem
    · show (tagBucketAcc
        (trades.filter (fun t => decide (tag ∈ t.tags)))).tradesCount = _
      rw [tagBucketAcc_proj (fun a => a.tradesCount) (fun _ => 1)
        (fun t a => rfl) rfl]
      exact sum_map_one _
    · show (tagBucketAcc
        (trades.filter (fun t => decide (tag ∈ t.tags)))).winsCount = _
      rw [tagBucketAcc_proj (fun a => a.winsCount)
        (fun t => if 0 < t.pnlCurrency.getD 0 then 1 else 0)
        (fun t a => rfl) rfl, sum_ite_prop_eq_length_filter]
      rfl
    · show (tagBucketAcc
        (trades.filter (fun t => decide (tag ∈ t.tags)))).netPnlCurrency = _
      rw [tagBucketAcc_proj (fun a => a.netPnlCurrency)
        (fun t => t.pnlCurrency.getD 0) (fun t a => rfl) rfl]
  · intro hnil s hs
    have hlk : lookupA tag (tagMapOf trades) = Option.none := by
      rw [lookupA_tagMapOf trades h tag, hnil]
      rfl
    unfold aggregateTagStats at hs
    by_cases hi : (tradesWithTagsOf trades).isEmpty
    · rw [if_pos hi] at hs
      simp at hs
    · rw [if_neg hi, mem_sortBy] at hs
      rcases List.mem_map.mp hs with ⟨e, he, rfl⟩
      have hne := ne_key_of_lookupA_eq_none hlk e he
      simpa [mkTagStat] using hne

/-- Witness for claim C9: with a trade tagged ["a","b"] (P&L +100) and one
tagged ["a"] (P&L -50), the bucket of "a" holds both trades and their full
P&L. -/
theorem C9_witness :
    ∃ s ∈ aggregateTagStats [winTrade, lossTrade], s.tag = "a" ∧
      s.tradesCount = ([winTrade, lossTrade].filter
        (fun t => decide ("a" ∈ t.tags))).length ∧
      s.winsCount = winsBySign ([winTrade, lossTrade].filter
        (fun t => decide ("a" ∈ t.tags))) ∧
      s.netPnlCurrency = (([winTrade, lossTrade].filter
        (fun t => decide ("a" ∈ t.tags))).map
        (fun t => t.pnlCurrency.getD 0)).sum :=
  (C9_tag_buckets [winTrade, lossTrade]
    (by simp [List.forall_mem_cons, winTrade, lossTrade]) "a").1
    (by simp [winTrade, lossTrade, List.filter_cons])

end TradeCompass

namespace TradeCompass

/-- Key-filtered value sum after a daily-map upsert: it grows by the added
P&L exactly when the day passes the filter. -/
theorem filterSumQ_upsert (p : Int → Bool) (k : Int) (w : ℚ)
    (m : List (Int × ℚ)) :
    (((upsert k 0 (fun v => v + w) m).filter (fun e => p e.1)).map
      Prod.snd).sum =
    ((m.filter (fun e => p e.1)).map Prod.snd).sum +
      (if p k then w else 0) := by
  induction m with
  | nil => by_cases h : p k <;> simp [upsert, List.filter_cons, h]
  | cons e m ih =>
    by_cases he : e.1 = k
    · by_cases hp : p k
      · simp [upsert, he, List.filter_cons, hp]
        ring
      · simp [upsert, he, List.filter_cons, hp]
    · by_cases hp : p e.1
      · simp [upsert, he, List.filter_cons, hp, ih]
        ring
      · simp [upsert, he, List.filter_cons, hp, ih]

/-- Key-filtered value sum of the daily P&L map equals the P&L sum of the
trades whose effective day passes the filter. -/
theorem filterSumQ_allDaily (p : Int → Bool) :
    ∀ (l : List Trade) (m : List (Int × ℚ)),
      (((l.foldl (fun m t =>
          match effectiveDayOf t with
          | Option.none => m
          | Option.some d =>
            upsert d 0 (fun v => v + t.pnlCurrency.getD 0) m) m).filter
        (fun e => p e.1)).map Prod.snd).sum =
      ((m.filter (fun e => p e.1)).map Prod.snd).sum + tradePnlSumOn l p := by
  intro l
  induction l with
  | nil => intro m; simp [tradePnlSumOn]
  | cons t l ih =>
    intro m
    rw [List.foldl_cons]
    cases hd : effectiveDayOf t with
    | none =>
      simp only [hd]
      rw [ih]
      unfold tradePnlSumOn
      simp [List.filter_cons, hd]
    | some d =>
      simp only [hd]
      rw [ih, filterSumQ_upsert]
      unfold tradePnlSumOn
      by_cases hp : p d
      · simp [List.filter_cons, hd, hp]
        ring
      · simp [List.filter_cons, hd, hp]

/-- Lookup of a day in the daily P&L map is the P&L sum of the trades whose
effective day is that day. -/
theorem lookupA_allDaily (k : Int) :
    ∀ (l : List Trade) (m : List (Int × ℚ)),
      (lookupA k (l.foldl (fun m t =>
        match effectiveDayOf t with
        | Option.none => m
        | Option.some d =>
          upsert d 0 (fun v => v + t.pnlCurrency.getD 0) m) m)).getD 0 =
      (lookupA k m).getD 0 + tradePnlSumOn l (fun d => decide (d = k)) := by
  intro l
  induction l with
  | nil => intro m; simp [tradePnlSumOn]
  | cons t l ih =>
    intro m
    rw [List.foldl_cons]
    cases hd : effectiveDayOf t with
    | none =>
      simp only [hd]
      rw [ih]
      unfold tradePnlSumOn
      simp [List.filter_cons, hd]
    | some d =>
      simp only [hd]
      rw [ih, lookupA_upsert]
      unfold tradePnlSumOn
      by_cases hdk : d = k
      · simp [List.filter_cons, hd, hdk]
        ring
      · simp [List.filter_cons, hd, hdk]

/-- Int.emod is the % of the integers (bridging lemma for omega). -/
theorem int_emod_eq_mod (a b : Int) : Int.emod a b = a % b := rfl

/-- startOfWeekMonday lands on a Monday at most six days before the given
day. -/
theorem startOfWeekMonday_spec (d : Int) :
    startOfWeekMonday d ≤ d ∧ d - startOfWeekMonday d < 7 ∧
      jsGetDayOfKey (startOfWeekMonday d) = 1 := by
  unfold startOfWeekMonday jsGetDayOfKey
  simp only [int_emod_eq_mod]
  omega

end TradeCompass

namespace TradeCompass

/-- Claim C6: today's (this week's) P&L percentage is the raw P&L of the
effective day (of the Monday-started week) divided by the rolling equity base
times 100, where the base is the cumulative P&L of the trades strictly before
today (strictly before the week start) when positive and 10,000 otherwise;
the week start is the Monday at most six days before today. -/
theorem C6_risk_progress (trades : List Trade) (todayKey : Int) :
    (riskProgressOf trades todayKey).todayPnl =
      tradePnlSumOn trades (fun d => decide (d = todayKey)) ∧
    (riskProgressOf trades todayKey).weekPnl =
      tradePnlSumOn trades (fun d =>
        decide (startOfWeekMonday todayKey ≤ d) && decide (d ≤ todayKey)) ∧
    (riskProgressOf trades todayKey).dailyPnlPercent =
      (riskProgressOf trades todayKey).todayPnl /
        (if 0 < tradePnlSumOn trades (fun d => decide (d < todayKey)) then
          tradePnlSumOn trades (fun d => decide (d < todayKey))
        else 10000) * 100 ∧
    (riskProgressOf trades todayKey).weeklyPnlPercent =
      (riskProgressOf trades todayKey).weekPnl /
        (if 0 < tradePnlSumOn trades
            (fun d => decide (d < startOfWeekMonday todayKey)) then
          tradePnlSumOn trades (fun d => decide (d < startOfWeekMonday todayKey))
        else 10000) * 100 ∧
    startOfWeekMonday todayKey ≤ todayKey ∧
    todayKey - startOfWeekMonday todayKey < 7 ∧
    jsGetDayOfKey (startOfWeekMonday todayKey) = 1 := by
  have hT : (lookupA todayKey (allDailyPnlMapOf trades)).getD 0 =
      tradePnlSumOn trades (fun d => decide (d = todayKey)) := by
    unfold allDailyPnlMapOf
    rw [lookupA_allDaily]
    simp [lookupA]
  have hW : (((allDailyPnlMapOf trades).filter (fun e =>
      decide (startOfWeekMonday todayKey ≤ e.1) &&
        decide (e.1 ≤ todayKey))).map Prod.snd).sum =
      tradePnlSumOn trades (fun d =>
        decide (startOfWeekMonday todayKey ≤ d) && decide (d ≤ todayKey)) := by
    unfold allDailyPnlMapOf
    rw [filterSumQ_allDaily (fun d =>
      decide (startOfWeekMonday todayKey ≤ d) && decide (d ≤ todayKey))]
    simp
  have hCT : cumulativePnlBefore (allDailyPnlMapOf trades) todayKey =
      tradePnlSumOn trades (fun d => decide (d < todayKey)) := by
    unfold cumulativePnlBefore allDailyPnlMapOf
    rw [filterSumQ_allDaily (fun d => decide (d < todayKey))]
    simp
  have hCW : cumulativePnlBefore (allDailyPnlMapOf trades)
      (startOfWeekMonday todayKey) =
      tradePnlSumOn trades (fun d => decide (d < startOfWeekMonday todayKey)) := by
    unfold cumulativePnlBefore allDailyPnlMapOf
    rw [filterSumQ_allDaily (fun d => decide (d < startOfWeekMonday todayKey))]
    simp
  have hmon := startOfWeekMonday_spec todayKey
  refine ⟨?_, ?_, ?_, ?_, hmon.1, hmon.2.1, hmon.2.2⟩
  · simp only [riskProgressOf]
    exact hT
  · simp only [riskProgressOf]
    exact hW
  · simp only [riskProgressOf]
    rw [hCT, hT]
    by_cases hc : 0 < tradePnlSumOn trades (fun d => decide (d < todayKey))
    · simp only [if_pos hc]
    · simp only [if_neg hc]
      norm_num [DEFAULT_BASE_BALANCE]
  · simp only [riskProgressOf]
    rw [hCW, hW]
    by_cases hc : 0 < tradePnlSumOn trades
        (fun d => decide (d < startOfWeekMonday todayKey))
    · simp only [if_pos hc]
    · simp only [if_neg hc]
      norm_num [DEFAULT_BASE_BALANCE]

end TradeCompass

namespace TradeCompass

/-- Filtering trades by stored status only depends on the status column. -/
theorem length_filter_status (l : List Trade) (st : TradeStatus) :
    (l.filter (fun t => t.status = st)).length =
      ((l.map (fun t => t.status)).filter (fun s => s = st)).length := by
  induction l with
  | nil => rfl
  | cons t ts ih =>
    by_cases hs : t.status = st <;> simp [List.filter_cons, hs, ih]

/-- Claim C1 (amended): the P&L-sign rule governs classification in the time
analytics (the wins/losses/breakevens across weekday buckets are exactly the
sign-rule counts of the valid trades), while the trades-page KPI aggregator
classifies by the stored status field: its win rate is unchanged under any
change of the trades that preserves the status column. -/
theorem C1_classification_rules (trades trades' : List Trade)
    (h : trades.map (fun t => t.status) = trades'.map (fun t => t.status)) :
    ((aggregateTimeAnalytics trades).weekdayStats.map
      (fun b => b.winsCount)).sum = winsBySign (validTimeTrades trades) ∧
    ((aggregateTimeAnalytics trades).weekdayStats.map
      (fun b => b.lossesCount)).sum = lossesBySign (validTimeTrades trades) ∧
    ((aggregateTimeAnalytics trades).weekdayStats.map
      (fun b => b.breakevenCount)).sum =
        breakevensBySign (validTimeTrades trades) ∧
    (calculateTradesKpis trades).winRate =
      (calculateTradesKpis trades').winRate := by
  have hperm := perm_sortBy (fun a b => decide (a.weekday ≤ b.weekday))
    ((weekdayMapOf trades).map mkWeekdayStat)
  refine ⟨?_, ?_, ?_, ?_⟩
  · simp only [aggregateTimeAnalytics]
    rw [(hperm.map (fun b : WeekdayStat => b.winsCount)).sum_eq, List.map_map]
    have hfun : ((fun b : WeekdayStat => b.winsCount) ∘ mkWeekdayStat) =
        (fun e : Int × TimeAcc => e.2.winsCount) := by
      funext e
      rfl
    rw [hfun]
    unfold weekdayMapOf
    rw [sumSnd_foldl (fun a : TimeAcc => a.winsCount)
      (fun t => jsGetDay ((getEffectiveOpenTime t).getD 0)) updateTimeAcc
      initTimeAcc (fun t => if 0 < t.pnlCurrency.getD 0 then 1 else 0)
      (fun b v => rfl) rfl (validTimeTrades trades) []]
    simp only [List.map_nil, List.sum_nil, zero_add]
    rw [sum_ite_prop_eq_length_filter]
    rfl
  · simp only [aggregateTimeAnalytics]
    rw [(hperm.map (fun b : WeekdayStat => b.lossesCount)).sum_eq, List.map_map]
    have hfun : ((fun b : WeekdayStat => b.lossesCount) ∘ mkWeekdayStat) =
        (fun e : Int × TimeAcc => e.2.lossesCount) := by
      funext e
      rfl
    rw [hfun]
    unfold weekdayMapOf
    rw [sumSnd_foldl (fun a : TimeAcc => a.lossesCount)
      (fun t => jsGetDay ((getEffectiveOpenTime t).getD 0)) updateTimeAcc
      initTimeAcc (fun t => if t.pnlCurrency.getD 0 < 0 then 1 else 0)
      (fun b v => rfl) rfl (validTimeTrades trades) []]
    simp only [List.map_nil, List.sum_nil, zero_add]
    rw [sum_ite_prop_eq_length_filter]
    rfl
  · simp only [aggregateTimeAnalytics]
    rw [(hperm.map (fun b : WeekdayStat => b.breakevenCount)).sum_eq,
      List.map_map]
    have hfun : ((fun b : WeekdayStat => b.breakevenCount) ∘ mkWeekdayStat) =
        (fun e : Int × TimeAcc => e.2.breakevenCount) := by
      funext e
      rfl
    rw [hfun]
    unfold weekdayMapOf
    rw [sumSnd_foldl (fun a : TimeAcc => a.breakevenCount)
      (fun t => jsGetDay ((getEffectiveOpenTime t).getD 0)) updateTimeAcc
      initTimeAcc (fun t => if t.pnlCurrency.getD 0 = 0 then 1 else 0)
      (fun b v => rfl) rfl (validTimeTrades trades) []]
    simp only [List.map_nil, List.sum_nil, zero_add]
    rw [sum_ite_prop_eq_length_filter]
    rfl
  · cases trades with
    | nil =>
      cases trades' with
      | nil => rfl
      | cons a as => exact absurd h (by simp)
    | cons t ts =>
      cases trades' with
      | nil => exact absurd h (by simp)
      | cons a as =>
        have hW : ((t :: ts).filter
            (fun x => x.status = TradeStatus.win)).length =
            ((a :: as).filter (fun x => x.status = TradeStatus.win)).length := by
          rw [length_filter_status, length_filter_status, h]
        have hL : ((t :: ts).filter
            (fun x => x.status = TradeStatus.loss)).length =
            ((a :: as).filter (fun x => x.status = TradeStatus.loss)).length := by
          rw [length_filter_status, length_filter_status, h]
        have hB : ((t :: ts).filter
            (fun x => x.status = TradeStatus.be)).length =
            ((a :: as).filter (fun x => x.status = TradeStatus.be)).length := by
          rw [length_filter_status, length_filter_status, h]
        simp only [calculateTradesKpis, List.isEmpty_cons, Bool.false_eq_true,
          if_false]
        rw [hW, hL, hB]

/-- Witness for claim C1 (amended): the sign-rule totals hold on a concrete
one-trade list, and changing the P&L of a loss-status trade from -50 to +100
leaves the trades-page win rate unchanged. -/
theorem C1_witness :
    ((aggregateTimeAnalytics [staleStatusTrade]).weekdayStats.map
      (fun b => b.winsCount)).sum =
        winsBySign (validTimeTrades [staleStatusTrade]) ∧
    ((aggregateTimeAnalytics [staleStatusTrade]).weekdayStats.map
      (fun b => b.lossesCount)).sum =
        lossesBySign (validTimeTrades [staleStatusTrade]) ∧
    ((aggregateTimeAnalytics [staleStatusTrade]).weekdayStats.map
      (fun b => b.breakevenCount)).sum =
        breakevensBySign (validTimeTrades [staleStatusTrade]) ∧
    (calculateTradesKpis [staleStatusTrade]).winRate =
      (calculateTradesKpis [lossTrade]).winRate :=
  C1_classification_rules [staleStatusTrade] [lossTrade] rfl

end TradeCompass
